import Mathlib

/-!
Verification of the metric-aggregation core of code_quality_inspector
(src/code_quality_inspector/code_quality_inspector.py).

Embedding conventions:
* Python floats are modelled as exact rationals (the aggregation arithmetic
  is sums, products and one guarded division, all exact over the inputs).
* The radon analysis capability (cc_visit, mi_visit, analyze) is an external
  collaborator; it is modelled as an abstract Analyzer whose operations may
  fail, mirroring the try/except boundary in calculate_metrics.
* The git repository is modelled as a list of commits (newest first), each
  carrying a tree of entries and a committed datetime; repo.git.show is a
  function from (hexsha, path) to file content.
* Python dicts built by defaultdict(list) are modelled as association lists
  in key insertion order, values in append order (insertAppend below).
-/

/-- One sample of the three metrics, as produced by calculate_metrics:
Ciclomatic_Complexity, Maintainability, Lines_of_Code. -/
structure MetricSample where
  cc : ℚ
  mi : ℚ
  loc : ℕ
deriving DecidableEq, Repr, Inhabited

/-- A metrics dict carrying its Date key, as appended to
history_metrics_by_file entries in generate_history_metrics_by_file. -/
structure DatedSample where
  date : String
  m : MetricSample
deriving DecidableEq, Repr, Inhabited

/-- A metrics dict carrying File and Date keys, as appended to
self.metrics_by_file in generate_project_metrics_by_file. -/
structure FileRow where
  file : String
  date : String
  m : MetricSample
deriving DecidableEq, Repr, Inhabited

/-- Running total of Ciclomatic_Complexity * Lines_of_Code, as accumulated by
the loop in generate_project_metrics and generate_history_metrics. -/
def totalCiclomatic (samples : List MetricSample) : ℚ :=
  samples.foldl (fun acc s => acc + s.cc * (s.loc : ℚ)) 0

/-- Running total of Maintainability * Lines_of_Code. -/
def totalMaintainability (samples : List MetricSample) : ℚ :=
  samples.foldl (fun acc s => acc + s.mi * (s.loc : ℚ)) 0

/-- Running total of Lines_of_Code. -/
def totalLoc (samples : List MetricSample) : ℕ :=
  samples.foldl (fun acc s => acc + s.loc) 0

/-- The weighted aggregation performed by the loops in
generate_project_metrics and (per date) generate_history_metrics:
lines of code are summed, complexity and maintainability are averaged
weighted by lines of code, with the Python truthiness guard
`total / total_loc if total_loc else 0` on both divisions. -/
def aggregate (samples : List MetricSample) : MetricSample :=
  let total_loc := totalLoc samples
  { cc := if total_loc ≠ 0 then totalCiclomatic samples / (total_loc : ℚ) else 0
    mi := if total_loc ≠ 0 then totalMaintainability samples / (total_loc : ℚ) else 0
    loc := total_loc }

/-- Model of a Python division `num / den`, which raises ZeroDivisionError
when the denominator is zero. -/
def pyDiv (num : ℚ) (den : ℕ) : Except String ℚ :=
  if den = 0 then Except.error "ZeroDivisionError" else Except.ok (num / (den : ℚ))

/-- Model of the Python expression `num / den if den else 0`: the division is
only executed when the guard holds, otherwise the expression is 0. -/
def pyGuardedDiv (num : ℚ) (den : ℕ) : Except String ℚ :=
  if den ≠ 0 then pyDiv num den else Except.ok 0

/-- Exception-aware version of aggregate, making the (guarded) division sites
explicit: an error value would represent an uncaught ZeroDivisionError. -/
def aggregateE (samples : List MetricSample) : Except String MetricSample := do
  let total_loc := totalLoc samples
  let cc ← pyGuardedDiv (totalCiclomatic samples) total_loc
  let mi ← pyGuardedDiv (totalMaintainability samples) total_loc
  Except.ok { cc := cc, mi := mi, loc := total_loc }

/-- The loop of generate_project_metrics, which runs over the accumulated
self.metrics_by_file rows and produces the single overall row. -/
def generate_project_metrics (rows : List FileRow) : MetricSample :=
  let total_ciclomatic : ℚ := rows.foldl (fun acc r => acc + r.m.cc * (r.m.loc : ℚ)) 0
  let total_maintainability : ℚ := rows.foldl (fun acc r => acc + r.m.mi * (r.m.loc : ℚ)) 0
  let total_loc : ℕ := rows.foldl (fun acc r => acc + r.m.loc) 0
  { cc := if total_loc ≠ 0 then total_ciclomatic / (total_loc : ℚ) else 0
    mi := if total_loc ≠ 0 then total_maintainability / (total_loc : ℚ) else 0
    loc := total_loc }

/-- The per-date loop body of generate_history_metrics, which runs over the
samples grouped under one date and produces that date's aggregate row. -/
def aggregateDated (date_metrics : List DatedSample) : MetricSample :=
  let total_ciclomatic : ℚ := date_metrics.foldl (fun acc s => acc + s.m.cc * (s.m.loc : ℚ)) 0
  let total_maintainability : ℚ := date_metrics.foldl (fun acc s => acc + s.m.mi * (s.m.loc : ℚ)) 0
  let total_loc : ℕ := date_metrics.foldl (fun acc s => acc + s.m.loc) 0
  { cc := if total_loc ≠ 0 then total_ciclomatic / (total_loc : ℚ) else 0
    mi := if total_loc ≠ 0 then total_maintainability / (total_loc : ℚ) else 0
    loc := total_loc }


/-- A decimal digit character. -/
def digitChar : ℕ → Char
  | 0 => '0'
  | 1 => '1'
  | 2 => '2'
  | 3 => '3'
  | 4 => '4'
  | 5 => '5'
  | 6 => '6'
  | 7 => '7'
  | 8 => '8'
  | 9 => '9'
  | _ => '?'

/-- Zero-padded fixed-width decimal rendering of a natural number, most
significant digit first, as produced by the %Y, %m, %d, %H, %M, %S strftime
directives. -/
def padDigits : ℕ → ℕ → List Char
  | 0, _ => []
  | k + 1, n => digitChar (n / 10 ^ k) :: padDigits k (n % 10 ^ k)

/-- A calendar datetime at second precision, as obtained by
datetime.fromtimestamp(commit.committed_date). The conversion from epoch
seconds is done by the external datetime library; commits carry the
converted value directly. -/
structure DateTime where
  year : ℕ
  month : ℕ
  day : ℕ
  hour : ℕ
  minute : ℕ
  second : ℕ
deriving DecidableEq, Repr

/-- Field bounds under which the fixed-width format is faithful; every value
datetime.fromtimestamp can produce satisfies them. -/
def DateTime.Valid (t : DateTime) : Prop :=
  t.year < 10000 ∧ t.month < 100 ∧ t.day < 100 ∧ t.hour < 100 ∧
    t.minute < 100 ∧ t.second < 100

instance (t : DateTime) : Decidable t.Valid :=
  inferInstanceAs (Decidable (t.year < 10000 ∧ t.month < 100 ∧ t.day < 100 ∧
    t.hour < 100 ∧ t.minute < 100 ∧ t.second < 100))

/-- Character stream of strftime("%Y-%m-%d %H:%M:%S"). -/
def dtChars (t : DateTime) : List Char :=
  padDigits 4 t.year ++
    '-' :: (padDigits 2 t.month ++
      '-' :: (padDigits 2 t.day ++
        ' ' :: (padDigits 2 t.hour ++
          ':' :: (padDigits 2 t.minute ++
            ':' :: padDigits 2 t.second))))

/-- The date string strftime("%Y-%m-%d %H:%M:%S") attached to every sample of
a commit in generate_history_metrics_by_file. -/
def formatDate (t : DateTime) : String :=
  String.mk (dtChars t)

/-- Chronological (lexicographic by year, month, day, hour, minute, second)
strict order on datetimes. -/
def chronoLt (a b : DateTime) : Prop :=
  a.year < b.year ∨ (a.year = b.year ∧
    (a.month < b.month ∨ (a.month = b.month ∧
      (a.day < b.day ∨ (a.day = b.day ∧
        (a.hour < b.hour ∨ (a.hour = b.hour ∧
          (a.minute < b.minute ∨ (a.minute = b.minute ∧
            a.second < b.second)))))))))

/-- External static-analysis capability (radon): cc_visit yields the detected
code blocks as their complexity scores, mi_visit the maintainability index in
multi mode, analyze the raw line-of-code count. Any operation may raise,
modelled by an error result. -/
structure Analyzer where
  cc_visit : String → Except String (List ℚ)
  mi_visit : String → Except String ℚ
  analyze : String → Except String ℕ

/-- Body of the try block of calculate_metrics: mean block complexity (0 when
no blocks are detected), maintainability, raw line count; stops at the first
raised error. -/
def tryExtract (A : Analyzer) (file_content : String) : Except String MetricSample := do
  let blocks ← A.cc_visit file_content
  let cyclomatic_complexity : ℚ :=
    if blocks.length ≠ 0 then blocks.sum / (blocks.length : ℚ) else 0
  let maintainability ← A.mi_visit file_content
  let num_lines_of_code ← A.analyze file_content
  Except.ok { cc := cyclomatic_complexity, mi := maintainability, loc := num_lines_of_code }

/-- calculate_metrics: per-file extraction with the try/except boundary. The
second component is the diagnostic output printed on failure; on failure the
sample degrades to all zeroes. -/
def calculate_metrics (A : Analyzer) (file_content file_name : String) :
    MetricSample × List String :=
  match tryExtract A file_content with
  | Except.ok m => (m, [])
  | Except.error err =>
      ({ cc := 0, mi := 0, loc := 0 }, ["Error in " ++ file_name ++ ": " ++ err])

/-- One entry yielded by commit.tree.traverse(). -/
structure TreeEntry where
  type : String
  path : String
  name : String
deriving DecidableEq, Repr

/-- One commit of the repository log. -/
structure Commit where
  hexsha : String
  committed_datetime : DateTime
  tree : List TreeEntry
deriving Repr

/-- The git repository: commit log newest first, and content retrieval
repo.git.show(hexsha, path). -/
structure Repo where
  commits : List Commit
  show_file : String → String → String

/-- Model of str.endswith over the character data. -/
def strEndsWith (s suffix : String) : Bool :=
  suffix.data.isSuffixOf s.data

/-- Root part of os.path.splitext applied to a bare file name: cut at the
last dot, provided some earlier character is not a dot. -/
def splitextRoot (s : String) : String :=
  let cs := s.data
  let dotIdxs := (List.range cs.length).filter (fun i => cs.getD i ' ' = '.')
  match dotIdxs.getLast? with
  | none => s
  | some sepIdx =>
      if (cs.take sepIdx).any (fun c => c ≠ '.') then String.mk (cs.take sepIdx) else s

/-- Append v to the list stored under key k, creating the key at the end on
first use: the behaviour of defaultdict(list) indexing plus append, with the
dict as an association list in key insertion order. -/
def insertAppend {β : Type} (m : List (String × List β)) (k : String) (v : β) :
    List (String × List β) :=
  if k ∈ m.map Prod.fst then
    m.map (fun p => if p.1 = k then (p.1, p.2 ++ [v]) else p)
  else m ++ [(k, [v])]

/-- The list stored under key k (empty when the key is absent). -/
def groupOf {β : Type} (m : List (String × List β)) (k : String) : List β :=
  ((m.find? (fun p => decide (p.1 = k))).map Prod.snd).getD []

/-- repo.iter_commits(max_count): the commit log, newest first, optionally
capped. -/
def visitedCommits (repo : Repo) (max_count : Option ℕ) : List Commit :=
  match max_count with
  | none => repo.commits
  | some n => repo.commits.take n

/-- Body of the inner loop of generate_history_metrics_by_file for one tree
entry of one commit. -/
def stepEntry (A : Analyzer) (repo : Repo) (commit : Commit)
    (acc : List (String × List DatedSample)) (item : TreeEntry) :
    List (String × List DatedSample) :=
  if item.type = "blob" ∧ strEndsWith item.path ".py" then
    let file_date := formatDate commit.committed_datetime
    let file_name := splitextRoot item.name
    let file_content := repo.show_file commit.hexsha item.path
    if file_content.length = 0 ∨ file_name = "__init__" then acc
    else
      insertAppend acc file_name
        { date := file_date, m := (calculate_metrics A file_content file_name).1 }
  else acc

/-- generate_history_metrics_by_file: walk the commit log (newest first,
optionally capped), visiting every .py blob of every commit tree and
recording a dated sample under the file stem. -/
def generate_history_metrics_by_file (A : Analyzer) (repo : Repo)
    (max_count : Option ℕ) : List (String × List DatedSample) :=
  (visitedCommits repo max_count).foldl
    (fun acc commit => commit.tree.foldl (stepEntry A repo commit) acc) []

/-- The row extracted from one stem group by generate_project_metrics_by_file:
file_metrics[0] with the File key added; indexing an empty group would raise,
hence the optional result. -/
def rowOfGroup (p : String × List DatedSample) : Option FileRow :=
  p.2.head?.map (fun s => { file := p.1, date := s.date, m := s.m })

/-- generate_project_metrics_by_file: run the history walk capped at the single
most recent commit and keep the first recorded sample of every stem. -/
def generate_project_metrics_by_file (A : Analyzer) (repo : Repo) :
    Option (List FileRow) :=
  (generate_history_metrics_by_file A repo (some 1)).mapM rowOfGroup

/-- The metrics_by_date grouping of generate_history_metrics: all samples of
all stems, regrouped under their date string. -/
def metricsByDate (history_metrics_by_file : List (String × List DatedSample)) :
    List (String × List DatedSample) :=
  history_metrics_by_file.foldl
    (fun acc p => p.2.foldl (fun a s => insertAppend a s.date s) acc) []

/-- generate_history_metrics: group all recorded samples by date string, sort
the dates descending, and emit one weighted aggregate row per date. -/
def generate_history_metrics
    (history_metrics_by_file : List (String × List DatedSample)) :
    List (String × MetricSample) :=
  let by_date := metricsByDate history_metrics_by_file
  let sorted_dates := List.insertionSort (fun a b : String => b ≤ a) (by_date.map Prod.fst)
  sorted_dates.map (fun date => (date, aggregateDated (groupOf by_date date)))

/-- The four accumulator fields set up in CodeQualityInspector.__init__. -/
structure InspectorState where
  metrics : List MetricSample
  metrics_by_file : List FileRow
  history_metrics : List (String × MetricSample)
  history_metrics_by_file : List (String × List DatedSample)
deriving DecidableEq

/-- Fresh accumulator state of a newly constructed inspector. -/
def initState : InspectorState :=
  { metrics := [], metrics_by_file := [], history_metrics := [],
    history_metrics_by_file := [] }

/-- inspect_project: append the per-file current rows, append one overall
row aggregated over the whole accumulated metrics_by_file list, and when
history is requested rebuild history_metrics_by_file and append the per-date
rows to history_metrics. -/
def inspect_project (A : Analyzer) (repo : Repo) (st : InspectorState)
    (inspect_history : Bool) (max_history_count : Int) : Option InspectorState :=
  (generate_project_metrics_by_file A repo).bind (fun new_rows =>
    let st1 : InspectorState := { st with metrics_by_file := st.metrics_by_file ++ new_rows }
    let st2 : InspectorState :=
      { st1 with metrics := st1.metrics ++ [generate_project_metrics st1.metrics_by_file] }
    if inspect_history then
      let max_count : Option ℕ :=
        if 0 < max_history_count then some max_history_count.toNat else none
      let hby := generate_history_metrics_by_file A repo max_count
      some { st2 with
              history_metrics_by_file := hby,
              history_metrics := st2.history_metrics ++ generate_history_metrics hby }
    else some st2)

/-- k successive inspect_project calls on one inspector instance. -/
def runInspections (A : Analyzer) (repo : Repo) (inspect_history : Bool)
    (max_history_count : Int) : ℕ → Option InspectorState
  | 0 => some initState
  | k + 1 =>
      (runInspections A repo inspect_history max_history_count k).bind
        (fun st => inspect_project A repo st inspect_history max_history_count)

/-- The data recorded for one qualifying tree entry: the commit date string
and the extracted metrics. -/
def entrySample (A : Analyzer) (repo : Repo) (c : Commit) (e : TreeEntry) : DatedSample :=
  { date := formatDate c.committed_datetime
    m := (calculate_metrics A (repo.show_file c.hexsha e.path) (splitextRoot e.name)).1 }

/-- The per-entry decision of generate_history_metrics_by_file, as an optional
(stem, sample) contribution: none exactly when the entry is skipped. -/
def selEntry (A : Analyzer) (repo : Repo) (c : Commit) (e : TreeEntry) :
    Option (String × DatedSample) :=
  if e.type = "blob" ∧ strEndsWith e.path ".py" then
    if (repo.show_file c.hexsha e.path).length = 0 ∨ splitextRoot e.name = "__init__" then
      none
    else some (splitextRoot e.name, entrySample A repo c e)
  else none

/-- Whether a tree entry of a commit contributes a sample under stem k: a .py
blob with nonempty content at that commit whose stem is k and is not
__init__. -/
def contributesB (repo : Repo) (c : Commit) (e : TreeEntry) (k : String) : Bool :=
  decide (e.type = "blob") && strEndsWith e.path ".py" &&
    decide ((repo.show_file c.hexsha e.path).length ≠ 0) &&
    decide (splitextRoot e.name ≠ "__init__") && decide (splitextRoot e.name = k)

/-- All samples recorded in a history_metrics_by_file mapping, in iteration
order of generate_history_metrics. -/
def allSamples (history_metrics_by_file : List (String × List DatedSample)) :
    List DatedSample :=
  history_metrics_by_file.flatMap Prod.snd

/-- The all-zero sample substituted on a per-file extraction failure. -/
def zeroSample : MetricSample :=
  { cc := 0, mi := 0, loc := 0 }

/-- An analyzer whose complexity pass always raises, exercising the
try/except boundary of calculate_metrics. -/
def errAnalyzer : Analyzer :=
  { cc_visit := fun _ => Except.error "invalid syntax"
    mi_visit := fun _ => Except.ok 0
    analyze := fun _ => Except.ok 0 }

/-- An analyzer that detects no code blocks and reports five raw lines for
every input. -/
def stubAnalyzer : Analyzer :=
  { cc_visit := fun _ => Except.ok []
    mi_visit := fun _ => Except.ok 0
    analyze := fun _ => Except.ok 5 }

/-- A repository whose single (HEAD) commit holds two distinct source files in
different directories sharing the stem util. -/
def twinRepo : Repo :=
  { commits := [
      { hexsha := "c1"
        committed_datetime :=
          { year := 2024, month := 5, day := 2, hour := 10, minute := 0, second := 0 }
        tree := [
          { type := "blob", path := "a/util.py", name := "util.py" },
          { type := "blob", path := "b/util.py", name := "util.py" } ] } ]
    show_file := fun _ path => if path = "a/util.py" then "x = 1" else "y = 2" }

/-- A repository with an empty commit log. -/
def emptyRepo : Repo :=
  { commits := [], show_file := fun _ _ => "" }

/-- A small concrete history mapping: two file stems, one sample each, the
two samples sharing the same date string. -/
def sampleHist : List (String × List DatedSample) :=
  [("a", [{ date := "2024-05-02 10:00:00", m := { cc := 1, mi := 2, loc := 3 } }]),
   ("b", [{ date := "2024-05-02 10:00:00", m := { cc := 2, mi := 3, loc := 4 } }])]

/-- The accumulator state after two inspect_project runs on the empty
repository. -/
def twoRunState : InspectorState :=
  { metrics := [zeroSample, zeroSample], metrics_by_file := [],
    history_metrics := [], history_metrics_by_file := [] }

/-- Fold a sequence of optional (key, value) contributions into a
defaultdict-style association list. Both grouping loops of the source are
instances of this shape. -/
def selFold {α β : Type} (sel : α → Option (String × β))
    (m : List (String × List β)) (l : List α) : List (String × List β) :=
  l.foldl (fun acc x => (sel x).elim acc (fun kv => insertAppend acc kv.1 kv.2)) m

section AggregationLemmas

theorem foldl_add_rat (f : α → ℚ) (l : List α) (a : ℚ) :
    l.foldl (fun acc x => acc + f x) a = a + (l.map f).sum := by
  induction l generalizing a with
  | nil => simp
  | cons x xs ih => simp [List.foldl_cons, ih, add_assoc]

theorem foldl_add_nat (f : α → ℕ) (l : List α) (a : ℕ) :
    l.foldl (fun acc x => acc + f x) a = a + (l.map f).sum := by
  induction l generalizing a with
  | nil => simp
  | cons x xs ih => simp [List.foldl_cons, ih, add_assoc]

theorem totalCiclomatic_eq_sum (l : List MetricSample) :
    totalCiclomatic l = (l.map (fun s => s.cc * (s.loc : ℚ))).sum := by
  simpa using foldl_add_rat (fun s => s.cc * (s.loc : ℚ)) l 0

theorem totalMaintainability_eq_sum (l : List MetricSample) :
    totalMaintainability l = (l.map (fun s => s.mi * (s.loc : ℚ))).sum := by
  simpa using foldl_add_rat (fun s => s.mi * (s.loc : ℚ)) l 0

theorem totalLoc_eq_sum (l : List MetricSample) :
    totalLoc l = (l.map (fun s => s.loc)).sum := by
  simpa using foldl_add_nat (fun s => s.loc) l 0

theorem generate_project_metrics_eq_aggregate (rows : List FileRow) :
    generate_project_metrics rows = aggregate (rows.map (fun r => r.m)) := by
  have h1 : rows.foldl (fun acc r => acc + r.m.cc * (r.m.loc : ℚ)) 0
      = totalCiclomatic (rows.map (fun r => r.m)) := by
    rw [totalCiclomatic_eq_sum, foldl_add_rat, List.map_map]
    simp [Function.comp_def]
  have h2 : rows.foldl (fun acc r => acc + r.m.mi * (r.m.loc : ℚ)) 0
      = totalMaintainability (rows.map (fun r => r.m)) := by
    rw [totalMaintainability_eq_sum, foldl_add_rat, List.map_map]
    simp [Function.comp_def]
  have h3 : rows.foldl (fun acc r => acc + r.m.loc) 0
      = totalLoc (rows.map (fun r => r.m)) := by
    rw [totalLoc_eq_sum, foldl_add_nat, List.map_map]
    simp [Function.comp_def]
  simp only [generate_project_metrics, aggregate, h1, h2, h3]

theorem aggregateDated_eq_aggregate (ds : List DatedSample) :
    aggregateDated ds = aggregate (ds.map (fun s => s.m)) := by
  have h1 : ds.foldl (fun acc s => acc + s.m.cc * (s.m.loc : ℚ)) 0
      = totalCiclomatic (ds.map (fun s => s.m)) := by
    rw [totalCiclomatic_eq_sum, foldl_add_rat, List.map_map]
    simp [Function.comp_def]
  have h2 : ds.foldl (fun acc s => acc + s.m.mi * (s.m.loc : ℚ)) 0
      = totalMaintainability (ds.map (fun s => s.m)) := by
    rw [totalMaintainability_eq_sum, foldl_add_rat, List.map_map]
    simp [Function.comp_def]
  have h3 : ds.foldl (fun acc s => acc + s.m.loc) 0
      = totalLoc (ds.map (fun s => s.m)) := by
    rw [totalLoc_eq_sum, foldl_add_nat, List.map_map]
    simp [Function.comp_def]
  simp only [aggregateDated, aggregate, h1, h2, h3]

theorem aggregate_of_totalLoc_eq_zero (l : List MetricSample) (h : totalLoc l = 0) :
    aggregate l = { cc := 0, mi := 0, loc := 0 } := by
  simp [aggregate, h]

theorem aggregateE_eq_ok (l : List MetricSample) :
    aggregateE l = Except.ok (aggregate l) := by
  by_cases h : totalLoc l = 0
  · simp [aggregateE, pyGuardedDiv, aggregate, h, Bind.bind, Except.bind]
  · simp [aggregateE, pyGuardedDiv, pyDiv, aggregate, h, Bind.bind, Except.bind]

theorem aggregate_perm {l₁ l₂ : List MetricSample} (h : l₁.Perm l₂) :
    aggregate l₁ = aggregate l₂ := by
  have hc : totalCiclomatic l₁ = totalCiclomatic l₂ := by
    rw [totalCiclomatic_eq_sum, totalCiclomatic_eq_sum]
    exact (h.map (fun s => s.cc * (s.loc : ℚ))).sum_eq
  have hm : totalMaintainability l₁ = totalMaintainability l₂ := by
    rw [totalMaintainability_eq_sum, totalMaintainability_eq_sum]
    exact (h.map (fun s => s.mi * (s.loc : ℚ))).sum_eq
  have hl : totalLoc l₁ = totalLoc l₂ := by
    rw [totalLoc_eq_sum, totalLoc_eq_sum]
    exact (h.map (fun s => s.loc)).sum_eq
  simp only [aggregate, hc, hm, hl]

end AggregationLemmas

section AssocToolkit

variable {β : Type}

theorem groupOf_nil (k : String) : groupOf ([] : List (String × List β)) k = [] := rfl

theorem insertAppend_fst_preserved (m : List (String × List β)) (k : String) (v : β) :
    (insertAppend m k v).map Prod.fst =
      if k ∈ m.map Prod.fst then m.map Prod.fst else m.map Prod.fst ++ [k] := by
  unfold insertAppend
  by_cases hk : k ∈ m.map Prod.fst
  · simp only [hk, if_true, List.map_map]
    apply List.map_congr_left
    intro p _
    by_cases hp : p.1 = k <;> simp [hp]
  · simp [hk]

theorem groupOf_insertAppend_self (m : List (String × List β)) (k : String) (v : β) :
    groupOf (insertAppend m k v) k = groupOf m k ++ [v] := by
  unfold insertAppend groupOf
  by_cases hk : k ∈ m.map Prod.fst
  · simp only [hk, if_true]
    rw [List.find?_map]
    simp only [Function.comp_def]
    have hpred : ∀ p : String × List β,
        decide ((if p.1 = k then (p.1, p.2 ++ [v]) else p).1 = k) = decide (p.1 = k) := by
      intro p
      by_cases hp : p.1 = k <;> simp [hp]
    rw [funext hpred]
    have hsome : (m.find? (fun q : String × List β => decide (q.1 = k))).isSome := by
      rw [List.find?_isSome]
      rcases List.mem_map.mp hk with ⟨p, hpm, hpk⟩
      exact ⟨p, hpm, by simpa using hpk⟩
    rcases Option.isSome_iff_exists.mp hsome with ⟨p0, hp0⟩
    have hp0k : p0.1 = k := by simpa using List.find?_some hp0
    simp [hp0, Function.comp, hp0k]
  · simp only [hk, if_false]
    have hnone : m.find? (fun q : String × List β => decide (q.1 = k)) = none := by
      rw [List.find?_eq_none]
      intro p hpm
      simp only [decide_eq_true_eq]
      intro hpk
      exact hk (List.mem_map.mpr ⟨p, hpm, hpk⟩)
    rw [List.find?_append, hnone]
    simp [hnone]

theorem groupOf_insertAppend_ne (m : List (String × List β)) (k k' : String) (v : β)
    (h : k' ≠ k) : groupOf (insertAppend m k v) k' = groupOf m k' := by
  unfold insertAppend groupOf
  by_cases hk : k ∈ m.map Prod.fst
  · simp only [hk, if_true]
    rw [List.find?_map]
    simp only [Function.comp_def]
    have hpred : ∀ p : String × List β,
        decide ((if p.1 = k then (p.1, p.2 ++ [v]) else p).1 = k') = decide (p.1 = k') := by
      intro p
      by_cases hp : p.1 = k <;> simp [hp]
    rw [funext hpred]
    cases hfind : m.find? (fun q : String × List β => decide (q.1 = k')) with
    | none => simp
    | some p0 =>
        have hp0k : p0.1 = k' := by simpa using List.find?_some hfind
        have : ¬ p0.1 = k := by rw [hp0k]; exact h
        simp [Function.comp, this]
  · simp only [hk, if_false]
    rw [List.find?_append]
    cases hfind : m.find? (fun q : String × List β => decide (q.1 = k')) with
    | none => simp [Ne.symm h]
    | some p0 => simp

theorem mem_keys_insertAppend (m : List (String × List β)) (k k' : String) (v : β) :
    k' ∈ (insertAppend m k v).map Prod.fst ↔ k' ∈ m.map Prod.fst ∨ k' = k := by
  rw [insertAppend_fst_preserved]
  by_cases hk : k ∈ m.map Prod.fst
  · simp only [hk, if_true]
    constructor
    · exact Or.inl
    · rintro (h | rfl)
      · exact h
      · exact hk
  · simp [hk]

theorem keys_nodup_insertAppend (m : List (String × List β)) (k : String) (v : β)
    (h : (m.map Prod.fst).Nodup) : ((insertAppend m k v).map Prod.fst).Nodup := by
  rw [insertAppend_fst_preserved]
  by_cases hk : k ∈ m.map Prod.fst
  · simpa [hk]
  · simpa [hk, List.nodup_append] using h

theorem groups_ne_nil_insertAppend (m : List (String × List β)) (k : String) (v : β)
    (h : ∀ p ∈ m, p.2 ≠ []) : ∀ p ∈ insertAppend m k v, p.2 ≠ [] := by
  unfold insertAppend
  by_cases hk : k ∈ m.map Prod.fst
  · simp only [hk, if_true]
    intro p hp
    rcases List.mem_map.mp hp with ⟨q, hqm, hq⟩
    by_cases hqk : q.1 = k
    · simp only [hqk, if_true] at hq
      rw [← hq]
      simp
    · simp only [hqk, if_false] at hq
      rw [← hq]
      exact h q hqm
  · simp only [hk, if_false]
    intro p hp
    rcases List.mem_append.mp hp with hpm | hpm
    · exact h p hpm
    · rcases List.mem_singleton.mp hpm with rfl
      simp

end AssocToolkit


section FoldCharacterization

variable {α β γ : Type}

theorem foldl_flatMap (g : α → List β) (f : γ → β → γ) (l : List α) (a : γ) :
    (l.flatMap g).foldl f a = l.foldl (fun acc x => (g x).foldl f acc) a := by
  induction l generalizing a with
  | nil => simp
  | cons x xs ih => simp [List.flatMap_cons, List.foldl_append, ih]

theorem selFold_nil (sel : α → Option (String × β)) (m : List (String × List β)) :
    selFold sel m [] = m := rfl

theorem selFold_cons (sel : α → Option (String × β)) (m : List (String × List β))
    (x : α) (xs : List α) :
    selFold sel m (x :: xs) =
      selFold sel ((sel x).elim m (fun kv => insertAppend m kv.1 kv.2)) xs := rfl

theorem groupOf_selFold (sel : α → Option (String × β)) (l : List α)
    (m : List (String × List β)) (k : String) :
    groupOf (selFold sel m l) k
      = groupOf m k ++ l.filterMap (fun x =>
          (sel x).elim none (fun kv => if kv.1 = k then some kv.2 else none)) := by
  induction l generalizing m with
  | nil => simp [selFold_nil]
  | cons x xs ih =>
      rw [selFold_cons, ih]
      cases hsel : sel x with
      | none => simp [List.filterMap_cons, hsel]
      | some kv =>
          by_cases hk : kv.1 = k
          · subst hk
            simp [List.filterMap_cons, hsel, groupOf_insertAppend_self]
          · simp [List.filterMap_cons, hsel, hk,
              groupOf_insertAppend_ne m kv.1 k kv.2 (fun h => hk h.symm)]

theorem keys_nodup_selFold (sel : α → Option (String × β)) (l : List α)
    (m : List (String × List β)) (h : (m.map Prod.fst).Nodup) :
    ((selFold sel m l).map Prod.fst).Nodup := by
  induction l generalizing m with
  | nil => exact h
  | cons x xs ih =>
      rw [selFold_cons]
      apply ih
      cases hsel : sel x with
      | none => exact h
      | some kv => exact keys_nodup_insertAppend m kv.1 kv.2 h

theorem groups_ne_nil_selFold (sel : α → Option (String × β)) (l : List α)
    (m : List (String × List β)) (h : ∀ p ∈ m, p.2 ≠ []) :
    ∀ p ∈ selFold sel m l, p.2 ≠ [] := by
  induction l generalizing m with
  | nil => exact h
  | cons x xs ih =>
      rw [selFold_cons]
      apply ih
      cases hsel : sel x with
      | none => exact h
      | some kv => exact groups_ne_nil_insertAppend m kv.1 kv.2 h

theorem mem_keys_selFold (sel : α → Option (String × β)) (l : List α)
    (m : List (String × List β)) (k : String) :
    k ∈ (selFold sel m l).map Prod.fst
      ↔ k ∈ m.map Prod.fst ∨ ∃ x ∈ l, ∃ v, sel x = some (k, v) := by
  induction l generalizing m with
  | nil => simp [selFold_nil]
  | cons x xs ih =>
      rw [selFold_cons, ih]
      cases hsel : sel x with
      | none =>
          constructor
          · rintro (hm | ⟨y, hy, v, hv⟩)
            · exact Or.inl hm
            · exact Or.inr ⟨y, List.mem_cons_of_mem x hy, v, hv⟩
          · rintro (hm | ⟨y, hy, v, hv⟩)
            · exact Or.inl hm
            · rcases List.mem_cons.mp hy with rfl | hy
              · rw [hsel] at hv; cases hv
              · exact Or.inr ⟨y, hy, v, hv⟩
      | some kv =>
          simp only [Option.elim_some]
          rw [mem_keys_insertAppend]
          constructor
          · rintro ((hm | rfl) | ⟨y, hy, v, hv⟩)
            · exact Or.inl hm
            · exact Or.inr ⟨x, List.mem_cons_self x xs, kv.2, by rw [hsel]⟩
            · exact Or.inr ⟨y, List.mem_cons_of_mem x hy, v, hv⟩
          · rintro (hm | ⟨y, hy, v, hv⟩)
            · exact Or.inl (Or.inl hm)
            · rcases List.mem_cons.mp hy with rfl | hy
              · rw [hsel] at hv
                cases hv
                exact Or.inl (Or.inr rfl)
              · exact Or.inr ⟨y, hy, v, hv⟩

theorem filterMap_if_eq_filter_map (p : α → Bool) (f : α → β) (l : List α) :
    l.filterMap (fun x => if p x then some (f x) else none) = (l.filter p).map f := by
  induction l with
  | nil => simp
  | cons x xs ih =>
      by_cases hx : p x <;> simp [List.filterMap_cons, List.filter_cons, hx, ih]

end FoldCharacterization

section WalkCharacterization

theorem stepEntry_eq_sel (A : Analyzer) (repo : Repo) (c : Commit)
    (acc : List (String × List DatedSample)) (e : TreeEntry) :
    stepEntry A repo c acc e =
      (selEntry A repo c e).elim acc (fun kv => insertAppend acc kv.1 kv.2) := by
  unfold stepEntry selEntry entrySample
  by_cases h1 : e.type = "blob" ∧ strEndsWith e.path ".py" = true
  · simp only [h1, and_true, if_true]
    by_cases h2 : (repo.show_file c.hexsha e.path).length = 0 ∨ splitextRoot e.name = "__init__"
    · simp [h1, h2]
    · simp [h1, h2]
  · simp [h1]

theorem walk_eq_selFold (A : Analyzer) (repo : Repo) (mc : Option ℕ) :
    generate_history_metrics_by_file A repo mc
      = selFold (fun ce : Commit × TreeEntry => selEntry A repo ce.1 ce.2) []
          ((visitedCommits repo mc).flatMap (fun c => c.tree.map (fun e => (c, e)))) := by
  unfold generate_history_metrics_by_file selFold
  rw [foldl_flatMap]
  have hstep : ∀ c : Commit, stepEntry A repo c = fun acc e =>
      (selEntry A repo c e).elim acc (fun kv => insertAppend acc kv.1 kv.2) := by
    intro c
    funext acc e
    exact stepEntry_eq_sel A repo c acc e
  simp only [List.foldl_map, hstep]

theorem selEntry_some_key (A : Analyzer) (repo : Repo) (c : Commit) (e : TreeEntry)
    (kv : String × DatedSample) (h : selEntry A repo c e = some kv) :
    kv.1 = splitextRoot e.name ∧ kv.1 ≠ "__init__" := by
  unfold selEntry at h
  by_cases h1 : e.type = "blob" ∧ strEndsWith e.path ".py" = true
  · simp only [h1, and_true, if_true] at h
    by_cases h2 : (repo.show_file c.hexsha e.path).length = 0 ∨ splitextRoot e.name = "__init__"
    · simp [h1, h2] at h
    · simp only [h1, h2, if_false] at h
      cases h
      push_neg at h2
      exact ⟨rfl, h2.2⟩
  · simp [h1] at h

theorem selEntry_decision (A : Analyzer) (repo : Repo) (c : Commit) (e : TreeEntry)
    (k : String) :
    (selEntry A repo c e).elim none (fun kv => if kv.1 = k then some kv.2 else none)
      = if contributesB repo c e k then some (entrySample A repo c e) else none := by
  by_cases h5 : splitextRoot e.name = k
  · subst h5
    unfold selEntry contributesB
    by_cases h1 : e.type = "blob" <;>
      by_cases h2 : strEndsWith e.path ".py" = true <;>
        by_cases h3 : (repo.show_file c.hexsha e.path).length = 0 <;>
          by_cases h4 : splitextRoot e.name = "__init__" <;>
            simp [h1, h2, h3, h4]
  · cases hse : selEntry A repo c e with
    | none => simp [contributesB, h5]
    | some kv =>
        have hkey := (selEntry_some_key A repo c e kv hse).1
        have hne : ¬ kv.1 = k := by rw [hkey]; exact h5
        simp [contributesB, h5, hne]

theorem groupOf_walk (A : Analyzer) (repo : Repo) (mc : Option ℕ) (k : String) :
    groupOf (generate_history_metrics_by_file A repo mc) k
      = (visitedCommits repo mc).flatMap (fun c =>
          (c.tree.filter (fun e => contributesB repo c e k)).map
            (entrySample A repo c)) := by
  rw [walk_eq_selFold, groupOf_selFold, groupOf_nil, List.nil_append,
    List.filterMap_flatMap]
  have hfun : ∀ c ∈ visitedCommits repo mc,
      List.filterMap (fun ce : Commit × TreeEntry =>
          (selEntry A repo ce.1 ce.2).elim none
            (fun kv => if kv.1 = k then some kv.2 else none)) (c.tree.map (fun e => (c, e)))
        = (c.tree.filter (fun e => contributesB repo c e k)).map (entrySample A repo c) := by
    intro c _
    rw [List.filterMap_map]
    have hpt : (fun ce : Commit × TreeEntry =>
        (selEntry A repo ce.1 ce.2).elim none
          (fun kv => if kv.1 = k then some kv.2 else none)) ∘ (fun e => (c, e))
        = fun e => if contributesB repo c e k then some (entrySample A repo c e) else none := by
      funext e
      simp only [Function.comp_apply]
      exact selEntry_decision A repo c e k
    rw [hpt, filterMap_if_eq_filter_map]
  exact List.flatMap_congr hfun

theorem walk_keys_nodup (A : Analyzer) (repo : Repo) (mc : Option ℕ) :
    ((generate_history_metrics_by_file A repo mc).map Prod.fst).Nodup := by
  rw [walk_eq_selFold]
  exact keys_nodup_selFold _ _ [] (by simp)

theorem walk_groups_ne_nil (A : Analyzer) (repo : Repo) (mc : Option ℕ) :
    ∀ p ∈ generate_history_metrics_by_file A repo mc, p.2 ≠ [] := by
  rw [walk_eq_selFold]
  exact groups_ne_nil_selFold _ _ [] (by simp)

theorem walk_keys_ne_init (A : Analyzer) (repo : Repo) (mc : Option ℕ) :
    ∀ p ∈ generate_history_metrics_by_file A repo mc, p.1 ≠ "__init__" := by
  intro p hp
  have hkey : p.1 ∈ (generate_history_metrics_by_file A repo mc).map Prod.fst :=
    List.mem_map.mpr ⟨p, hp, rfl⟩
  rw [walk_eq_selFold, mem_keys_selFold] at hkey
  rcases hkey with hnil | ⟨ce, _, v, hv⟩
  · simp at hnil
  · exact (selEntry_some_key A repo ce.1 ce.2 (p.1, v) hv).2

end WalkCharacterization

section ProjectByFile

theorem mapM_rowOfGroup (m : List (String × List DatedSample)) (h : ∀ p ∈ m, p.2 ≠ []) :
    ∃ rows, m.mapM rowOfGroup = some rows ∧
      rows.map FileRow.file = m.map Prod.fst ∧
      ∀ r ∈ rows, ∃ g, (r.file, g) ∈ m ∧ g.head? = some { date := r.date, m := r.m } := by
  induction m with
  | nil => exact ⟨[], rfl, rfl, by simp⟩
  | cons p ps ih =>
      have hp : p.2 ≠ [] := h p (List.mem_cons_self p ps)
      obtain ⟨s, rest, hs⟩ : ∃ s rest, p.2 = s :: rest := by
        cases hps : p.2 with
        | nil => exact absurd hps hp
        | cons a b => exact ⟨a, b, rfl⟩
      obtain ⟨rows, hrows, hfiles, hmem⟩ := ih (fun q hq => h q (List.mem_cons_of_mem p hq))
      refine ⟨{ file := p.1, date := s.date, m := s.m } :: rows, ?_, ?_, ?_⟩
      · rw [List.mapM_cons]
        have hrows2 : List.mapM.loop rowOfGroup ps [] = some rows := hrows
        simp [rowOfGroup, hs, hrows2]
      · simp [hfiles]
      · intro r hr
        rcases List.mem_cons.mp hr with rfl | hr
        · refine ⟨p.2, ?_, ?_⟩
          · simp
          · simp [hs]
        · obtain ⟨g, hg, hghead⟩ := hmem r hr
          exact ⟨g, List.mem_cons_of_mem p hg, hghead⟩

theorem project_by_file_spec (A : Analyzer) (repo : Repo) :
    ∃ rows, generate_project_metrics_by_file A repo = some rows ∧
      rows.map FileRow.file
        = (generate_history_metrics_by_file A repo (some 1)).map Prod.fst ∧
      ∀ r ∈ rows, ∃ g, (r.file, g) ∈ generate_history_metrics_by_file A repo (some 1) ∧
        g.head? = some { date := r.date, m := r.m } :=
  mapM_rowOfGroup _ (walk_groups_ne_nil A repo (some 1))

end ProjectByFile

section DateOrder

theorem digitChar_lt_iff : ∀ a < 10, ∀ b < 10,
    (digitChar a < digitChar b ↔ a < b) := by decide

theorem digitChar_inj_iff : ∀ a < 10, ∀ b < 10,
    (digitChar a = digitChar b ↔ a = b) := by decide

theorem padDigits_length (k : ℕ) : ∀ n : ℕ, (padDigits k n).length = k := by
  induction k with
  | zero => intro n; rfl
  | succ k ih => intro n; simp [padDigits, ih]

theorem lex_cons_same {c : Char} {r₁ r₂ : List Char} :
    List.Lex (· < ·) (c :: r₁) (c :: r₂) ↔ List.Lex (· < ·) r₁ r₂ := by
  constructor
  · intro h
    cases h with
    | cons h1 => exact h1
    | rel h1 => exact absurd h1 (lt_irrefl c)
  · exact List.Lex.cons

theorem lex_cons_ne {a b : Char} (h : a ≠ b) {r₁ r₂ : List Char} :
    List.Lex (· < ·) (a :: r₁) (b :: r₂) ↔ a < b := by
  constructor
  · intro hl
    cases hl with
    | cons h1 => exact absurd rfl h
    | rel h1 => exact h1
  · intro h1
    exact List.Lex.rel h1

theorem nat_lt_iff_div_mod_aux (p qn rn qm rm : ℕ) (hrn : rn < p) (hrm : rm < p) :
    p * qn + rn < p * qm + rm ↔ (qn < qm ∨ (qn = qm ∧ rn < rm)) := by
  constructor
  · intro h
    by_cases hq : qn = qm
    · subst hq
      exact Or.inr ⟨rfl, Nat.lt_of_add_lt_add_left h⟩
    · left
      by_contra hle
      push_neg at hle
      have h2 : qm < qn := lt_of_le_of_ne hle (fun e => hq e.symm)
      have h5 : p * qm + p ≤ p * qn := by
        have h4 : p * (qm + 1) ≤ p * qn := Nat.mul_le_mul_left p h2
        rw [Nat.mul_add, Nat.mul_one] at h4
        exact h4
      have hcontra : p * qm + rm < p * qn + rn :=
        calc p * qm + rm < p * qm + p := Nat.add_lt_add_left hrm _
          _ ≤ p * qn := h5
          _ ≤ p * qn + rn := Nat.le_add_right _ _
      exact absurd hcontra (Nat.lt_asymm h)
  · rintro (hq | ⟨rfl, hr⟩)
    · have h4 : p * (qn + 1) ≤ p * qm := Nat.mul_le_mul_left p hq
      calc p * qn + rn < p * qn + p := Nat.add_lt_add_left hrn _
        _ = p * (qn + 1) := by ring
        _ ≤ p * qm := h4
        _ ≤ p * qm + rm := Nat.le_add_right _ _
    · exact Nat.add_lt_add_left hr _

theorem nat_lt_iff_div_mod (p n m : ℕ) (hp : 0 < p) :
    n < m ↔ (n / p < m / p ∨ (n / p = m / p ∧ n % p < m % p)) := by
  have hx := nat_lt_iff_div_mod_aux p (n / p) (n % p) (m / p) (m % p)
    (Nat.mod_lt n hp) (Nat.mod_lt m hp)
  rw [Nat.div_add_mod, Nat.div_add_mod] at hx
  exact hx

theorem nat_eq_iff_div_mod (p n m : ℕ) :
    n = m ↔ (n / p = m / p ∧ n % p = m % p) := by
  constructor
  · rintro rfl
    exact ⟨rfl, rfl⟩
  · rintro ⟨h1, h2⟩
    have hn := Nat.div_add_mod n p
    have hm := Nat.div_add_mod m p
    rw [← hn, ← hm, h1, h2]

theorem padDigits_lex_iff (k : ℕ) : ∀ n m : ℕ, n < 10 ^ k → m < 10 ^ k →
    (List.Lex (· < ·) (padDigits k n) (padDigits k m) ↔ n < m) := by
  induction k with
  | zero =>
      intro n m hn hm
      simp only [padDigits]
      constructor
      · intro h
        exact absurd h (List.Lex.not_nil_right _ _)
      · intro h
        omega
  | succ k ih =>
      intro n m hn hm
      have hp0 : 0 < (10 : ℕ) ^ k := pow_pos (by norm_num) k
      have hdn : n / 10 ^ k < 10 := by
        rw [Nat.div_lt_iff_lt_mul hp0]
        calc n < 10 ^ (k + 1) := hn
          _ = 10 * 10 ^ k := by ring
      have hdm : m / 10 ^ k < 10 := by
        rw [Nat.div_lt_iff_lt_mul hp0]
        calc m < 10 ^ (k + 1) := hm
          _ = 10 * 10 ^ k := by ring
      have hmn : n % 10 ^ k < 10 ^ k := Nat.mod_lt n hp0
      have hmm : m % 10 ^ k < 10 ^ k := Nat.mod_lt m hp0
      simp only [padDigits]
      rw [nat_lt_iff_div_mod (10 ^ k) n m hp0]
      by_cases hd : n / 10 ^ k = m / 10 ^ k
      · rw [hd, lex_cons_same, ih _ _ hmn hmm]
        simp [hd]
      · have hchar : digitChar (n / 10 ^ k) ≠ digitChar (m / 10 ^ k) := by
          intro hc
          exact hd ((digitChar_inj_iff (n / 10 ^ k) hdn (m / 10 ^ k) hdm).mp hc)
        rw [lex_cons_ne hchar, digitChar_lt_iff (n / 10 ^ k) hdn (m / 10 ^ k) hdm]
        simp [hd]

theorem padDigits_inj_iff (k : ℕ) : ∀ n m : ℕ, n < 10 ^ k → m < 10 ^ k →
    (padDigits k n = padDigits k m ↔ n = m) := by
  induction k with
  | zero =>
      intro n m hn hm
      simp only [padDigits]
      constructor
      · intro _
        omega
      · intro _
        trivial
  | succ k ih =>
      intro n m hn hm
      have hp0 : 0 < (10 : ℕ) ^ k := pow_pos (by norm_num) k
      have hdn : n / 10 ^ k < 10 := by
        rw [Nat.div_lt_iff_lt_mul hp0]
        calc n < 10 ^ (k + 1) := hn
          _ = 10 * 10 ^ k := by ring
      have hdm : m / 10 ^ k < 10 := by
        rw [Nat.div_lt_iff_lt_mul hp0]
        calc m < 10 ^ (k + 1) := hm
          _ = 10 * 10 ^ k := by ring
      have hmn : n % 10 ^ k < 10 ^ k := Nat.mod_lt n hp0
      have hmm : m % 10 ^ k < 10 ^ k := Nat.mod_lt m hp0
      simp only [padDigits, List.cons.injEq]
      rw [ih _ _ hmn hmm, digitChar_inj_iff (n / 10 ^ k) hdn (m / 10 ^ k) hdm]
      exact (nat_eq_iff_div_mod (10 ^ k) n m).symm

theorem lex_append_iff : ∀ {l₁ l₂ : List Char}, l₁.length = l₂.length →
    ∀ {r₁ r₂ : List Char},
    (List.Lex (· < ·) (l₁ ++ r₁) (l₂ ++ r₂) ↔
      List.Lex (· < ·) l₁ l₂ ∨ (l₁ = l₂ ∧ List.Lex (· < ·) r₁ r₂)) := by
  intro l₁
  induction l₁ with
  | nil =>
      intro l₂ h r₁ r₂
      cases l₂ with
      | nil =>
          simp only [List.nil_append]
          constructor
          · intro hx
            exact Or.inr ⟨trivial, hx⟩
          · rintro (hx | ⟨_, hx⟩)
            · exact absurd hx (List.Lex.not_nil_right _ _)
            · exact hx
      | cons b t => simp at h
  | cons a t₁ ih =>
      intro l₂ h r₁ r₂
      cases l₂ with
      | nil => simp at h
      | cons b t₂ =>
          have hlen : t₁.length = t₂.length := by simpa using h
          by_cases hab : a = b
          · subst hab
            rw [List.cons_append, List.cons_append, lex_cons_same, ih hlen,
              lex_cons_same]
            simp [List.cons.injEq]
          · rw [List.cons_append, List.cons_append, lex_cons_ne hab, lex_cons_ne hab]
            simp [List.cons.injEq, hab]

theorem lex_pad_block (k x y : ℕ) (hx : x < 10 ^ k) (hy : y < 10 ^ k)
    (r₁ r₂ : List Char) :
    List.Lex (· < ·) (padDigits k x ++ r₁) (padDigits k y ++ r₂) ↔
      (x < y ∨ (x = y ∧ List.Lex (· < ·) r₁ r₂)) := by
  rw [lex_append_iff (by rw [padDigits_length, padDigits_length]),
    padDigits_lex_iff k x y hx hy, padDigits_inj_iff k x y hx hy]

theorem dtChars_lex_iff (a b : DateTime) (ha : a.Valid) (hb : b.Valid) :
    (List.Lex (· < ·) (dtChars a) (dtChars b) ↔ chronoLt a b) := by
  obtain ⟨ha1, ha2, ha3, ha4, ha5, ha6⟩ := ha
  obtain ⟨hb1, hb2, hb3, hb4, hb5, hb6⟩ := hb
  have e4 : (10 : ℕ) ^ 4 = 10000 := by norm_num
  have e2 : (10 : ℕ) ^ 2 = 100 := by norm_num
  unfold dtChars chronoLt
  rw [lex_pad_block 4 _ _ (by rw [e4]; exact ha1) (by rw [e4]; exact hb1),
    lex_cons_same,
    lex_pad_block 2 _ _ (by rw [e2]; exact ha2) (by rw [e2]; exact hb2),
    lex_cons_same,
    lex_pad_block 2 _ _ (by rw [e2]; exact ha3) (by rw [e2]; exact hb3),
    lex_cons_same,
    lex_pad_block 2 _ _ (by rw [e2]; exact ha4) (by rw [e2]; exact hb4),
    lex_cons_same,
    lex_pad_block 2 _ _ (by rw [e2]; exact ha5) (by rw [e2]; exact hb5),
    lex_cons_same,
    padDigits_lex_iff 2 _ _ (by rw [e2]; exact ha6) (by rw [e2]; exact hb6)]

theorem formatDate_lt_iff (a b : DateTime) (ha : a.Valid) (hb : b.Valid) :
    (formatDate a < formatDate b ↔ chronoLt a b) := by
  rw [String.lt_iff_toList_lt]
  show List.Lex (· < ·) (dtChars a) (dtChars b) ↔ chronoLt a b
  exact dtChars_lex_iff a b ha hb

end DateOrder

section HistoryMetrics

theorem metricsByDate_eq_selFold (h : List (String × List DatedSample)) :
    metricsByDate h
      = selFold (fun s : DatedSample => some (s.date, s)) [] (allSamples h) := by
  unfold metricsByDate selFold allSamples
  rw [foldl_flatMap]
  rfl

theorem groupOf_metricsByDate (h : List (String × List DatedSample)) (d : String) :
    groupOf (metricsByDate h) d
      = (allSamples h).filter (fun s => decide (s.date = d)) := by
  rw [metricsByDate_eq_selFold, groupOf_selFold, groupOf_nil, List.nil_append]
  have hpt : (fun s : DatedSample =>
      (some (s.date, s)).elim none (fun kv => if kv.1 = d then some kv.2 else none))
      = fun s : DatedSample => if decide (s.date = d) then some (id s) else none := by
    funext s
    by_cases hs : s.date = d <;> simp [hs]
  rw [hpt, filterMap_if_eq_filter_map]
  simp

theorem metricsByDate_keys_nodup (h : List (String × List DatedSample)) :
    ((metricsByDate h).map Prod.fst).Nodup := by
  rw [metricsByDate_eq_selFold]
  exact keys_nodup_selFold _ _ [] (by simp)

theorem mem_keys_metricsByDate (h : List (String × List DatedSample)) (d : String) :
    d ∈ (metricsByDate h).map Prod.fst
      ↔ d ∈ (allSamples h).map DatedSample.date := by
  rw [metricsByDate_eq_selFold, mem_keys_selFold]
  constructor
  · rintro (hnil | ⟨s, hs, v, hv⟩)
    · simp at hnil
    · cases hv
      exact List.mem_map.mpr ⟨s, hs, rfl⟩
  · intro hd
    rcases List.mem_map.mp hd with ⟨s, hs, rfl⟩
    exact Or.inr ⟨s, hs, s, rfl⟩

theorem history_keys_sorted (h : List (String × List DatedSample)) :
    List.Sorted (fun a b : String => b ≤ a)
      ((generate_history_metrics h).map Prod.fst) := by
  have hmap : (generate_history_metrics h).map Prod.fst
      = List.insertionSort (fun a b : String => b ≤ a) ((metricsByDate h).map Prod.fst) := by
    unfold generate_history_metrics
    rw [List.map_map]
    simp [Function.comp_def]
  rw [hmap]
  exact List.sorted_insertionSort (fun a b : String => b ≤ a) _

theorem history_keys_perm (h : List (String × List DatedSample)) :
    ((generate_history_metrics h).map Prod.fst).Perm ((metricsByDate h).map Prod.fst) := by
  have hmap : (generate_history_metrics h).map Prod.fst
      = List.insertionSort (fun a b : String => b ≤ a) ((metricsByDate h).map Prod.fst) := by
    unfold generate_history_metrics
    rw [List.map_map]
    simp [Function.comp_def]
  rw [hmap]
  exact List.perm_insertionSort _ _

theorem history_keys_nodup (h : List (String × List DatedSample)) :
    ((generate_history_metrics h).map Prod.fst).Nodup :=
  (history_keys_perm h).nodup_iff.mpr (metricsByDate_keys_nodup h)

theorem history_keys_pairwise_gt (h : List (String × List DatedSample)) :
    ((generate_history_metrics h).map Prod.fst).Pairwise (fun a b : String => b < a) := by
  have hs := history_keys_sorted h
  have hn := history_keys_nodup h
  have := List.Pairwise.and hs hn
  exact this.imp (fun hab => lt_of_le_of_ne hab.1 (fun e => hab.2 e.symm))

theorem history_mem_dates (h : List (String × List DatedSample)) (d : String) :
    d ∈ (generate_history_metrics h).map Prod.fst
      ↔ d ∈ (allSamples h).map DatedSample.date := by
  rw [(history_keys_perm h).mem_iff, mem_keys_metricsByDate]

theorem history_rows_aggregate (h : List (String × List DatedSample)) :
    ∀ p ∈ generate_history_metrics h,
      p.2 = aggregateDated ((allSamples h).filter (fun s => decide (s.date = p.1))) := by
  intro p hp
  unfold generate_history_metrics at hp
  rcases List.mem_map.mp hp with ⟨d, _, rfl⟩
  rw [← groupOf_metricsByDate]

end HistoryMetrics

section AggregationClaims

theorem sum_const_cc (C : ℚ) : ∀ l : List MetricSample, (∀ s ∈ l, s.cc = C) →
    (l.map (fun s => s.cc * (s.loc : ℚ))).sum
      = C * (((l.map (fun s => s.loc)).sum : ℕ) : ℚ) := by
  intro l
  induction l with
  | nil => simp
  | cons s ss ih =>
      intro hall
      have hs : s.cc = C := hall s (List.mem_cons_self s ss)
      have ihh := ih (fun q hq => hall q (List.mem_cons_of_mem s hq))
      simp only [List.map_cons, List.sum_cons, hs, ihh]
      push_cast
      ring

theorem aggregate_append_zero (l : List MetricSample) :
    aggregate (l ++ [zeroSample]) = aggregate l := by
  have h1 : totalCiclomatic (l ++ [zeroSample]) = totalCiclomatic l := by
    rw [totalCiclomatic_eq_sum, totalCiclomatic_eq_sum]
    simp [zeroSample]
  have h2 : totalMaintainability (l ++ [zeroSample]) = totalMaintainability l := by
    rw [totalMaintainability_eq_sum, totalMaintainability_eq_sum]
    simp [zeroSample]
  have h3 : totalLoc (l ++ [zeroSample]) = totalLoc l := by
    rw [totalLoc_eq_sum, totalLoc_eq_sum]
    simp [zeroSample]
  simp only [aggregate, h1, h2, h3]

/-- C1: for every sample group with zero total lines of code, the aggregate is
exactly (0, 0, 0) in all three aggregation shapes (the shared formula, the
project loop, the per-date history loop), and the guarded divisions never
raise: the exception-aware evaluation always returns an ok value. -/
theorem claim_C1_zero_total (l : List MetricSample) (rows : List FileRow)
    (ds : List DatedSample) (hl : totalLoc l = 0)
    (hrows : totalLoc (rows.map (fun r => r.m)) = 0)
    (hds : totalLoc (ds.map (fun s => s.m)) = 0) :
    aggregate l = { cc := 0, mi := 0, loc := 0 } ∧
    generate_project_metrics rows = { cc := 0, mi := 0, loc := 0 } ∧
    aggregateDated ds = { cc := 0, mi := 0, loc := 0 } ∧
    (∀ l2 : List MetricSample, aggregateE l2 = Except.ok (aggregate l2)) := by
  refine ⟨aggregate_of_totalLoc_eq_zero l hl, ?_, ?_, aggregateE_eq_ok⟩
  · rw [generate_project_metrics_eq_aggregate]
    exact aggregate_of_totalLoc_eq_zero _ hrows
  · rw [aggregateDated_eq_aggregate]
    exact aggregate_of_totalLoc_eq_zero _ hds

theorem claim_C1_zero_total_witness :
    aggregate [{ cc := 3, mi := 4, loc := 0 }] = { cc := 0, mi := 0, loc := 0 } ∧
    generate_project_metrics [] = { cc := 0, mi := 0, loc := 0 } ∧
    aggregateDated [] = { cc := 0, mi := 0, loc := 0 } ∧
    (∀ l2 : List MetricSample, aggregateE l2 = Except.ok (aggregate l2)) :=
  claim_C1_zero_total [{ cc := 3, mi := 4, loc := 0 }] [] [] rfl rfl rfl

/-- C2: for every nonempty sample group with positive total lines of code, the
aggregate sums lines of code and divides the weighted sums by the total,
independently for complexity and maintainability; both the project snapshot
loop and the per-date history loop compute exactly this aggregate of their
samples. -/
theorem claim_C2_weighted_mean (l : List MetricSample) (_hne : l ≠ [])
    (hpos : 0 < totalLoc l) :
    ((aggregate l).loc = (l.map (fun s => s.loc)).sum ∧
      (aggregate l).cc
        = (l.map (fun s => s.cc * (s.loc : ℚ))).sum
            / (((l.map (fun s => s.loc)).sum : ℕ) : ℚ) ∧
      (aggregate l).mi
        = (l.map (fun s => s.mi * (s.loc : ℚ))).sum
            / (((l.map (fun s => s.loc)).sum : ℕ) : ℚ)) ∧
    (∀ rows : List FileRow,
        generate_project_metrics rows = aggregate (rows.map (fun r => r.m))) ∧
    (∀ ds : List DatedSample,
        aggregateDated ds = aggregate (ds.map (fun s => s.m))) := by
  have h0 : totalLoc l ≠ 0 := hpos.ne'
  refine ⟨⟨?_, ?_, ?_⟩, generate_project_metrics_eq_aggregate, aggregateDated_eq_aggregate⟩
  · simp only [aggregate]
    exact totalLoc_eq_sum l
  · simp only [aggregate, if_pos h0]
    rw [totalCiclomatic_eq_sum, totalLoc_eq_sum]
  · simp only [aggregate, if_pos h0]
    rw [totalMaintainability_eq_sum, totalLoc_eq_sum]

theorem claim_C2_weighted_mean_witness :
    (((aggregate [{ cc := 2, mi := 3, loc := 4 }]).loc
        = ([{ cc := 2, mi := 3, loc := 4 }].map (fun s : MetricSample => s.loc)).sum ∧
      (aggregate [{ cc := 2, mi := 3, loc := 4 }]).cc
        = ([{ cc := 2, mi := 3, loc := 4 }].map (fun s : MetricSample => s.cc * (s.loc : ℚ))).sum
            / ((([{ cc := 2, mi := 3, loc := 4 }].map (fun s : MetricSample => s.loc)).sum : ℕ) : ℚ) ∧
      (aggregate [{ cc := 2, mi := 3, loc := 4 }]).mi
        = ([{ cc := 2, mi := 3, loc := 4 }].map (fun s : MetricSample => s.mi * (s.loc : ℚ))).sum
            / ((([{ cc := 2, mi := 3, loc := 4 }].map (fun s : MetricSample => s.loc)).sum : ℕ) : ℚ)) ∧
    (∀ rows : List FileRow,
        generate_project_metrics rows = aggregate (rows.map (fun r => r.m))) ∧
    (∀ ds : List DatedSample,
        aggregateDated ds = aggregate (ds.map (fun s => s.m)))) :=
  claim_C2_weighted_mean [{ cc := 2, mi := 3, loc := 4 }] (by decide) (by decide)

/-- C3: any error raised inside the extraction try block is caught at the
per-file boundary: the result is the all-zero sample together with one
diagnostic line naming the file label, and a successful extraction returns
the extracted sample with no diagnostic; in both cases a value is returned,
never an exception. -/
theorem claim_C3_error_boundary (A : Analyzer) (file_content file_name err : String)
    (herr : tryExtract A file_content = Except.error err) :
    calculate_metrics A file_content file_name
      = ({ cc := 0, mi := 0, loc := 0 },
          ["Error in " ++ file_name ++ ": " ++ err]) ∧
    (∀ (A2 : Analyzer) (c2 n2 : String) (m : MetricSample),
        tryExtract A2 c2 = Except.ok m → calculate_metrics A2 c2 n2 = (m, [])) := by
  constructor
  · unfold calculate_metrics
    rw [herr]
  · intro A2 c2 n2 m hok
    unfold calculate_metrics
    rw [hok]

theorem claim_C3_error_boundary_witness :
    calculate_metrics errAnalyzer "def f(:" "broken_mod"
      = ({ cc := 0, mi := 0, loc := 0 },
          ["Error in " ++ "broken_mod" ++ ": " ++ "invalid syntax"]) ∧
    (∀ (A2 : Analyzer) (c2 n2 : String) (m : MetricSample),
        tryExtract A2 c2 = Except.ok m → calculate_metrics A2 c2 n2 = (m, [])) :=
  claim_C3_error_boundary errAnalyzer "def f(:" "broken_mod" "invalid syntax" rfl

/-- C7: the weighted aggregate is invariant under any permutation of the
input sample sequence. -/
theorem claim_C7_perm_invariant (l1 l2 : List MetricSample) (h : l1.Perm l2) :
    aggregate l1 = aggregate l2 :=
  aggregate_perm h

theorem claim_C7_perm_invariant_witness :
    aggregate [{ cc := 1, mi := 2, loc := 3 }, { cc := 4, mi := 5, loc := 6 }]
      = aggregate [{ cc := 4, mi := 5, loc := 6 }, { cc := 1, mi := 2, loc := 3 }] :=
  claim_C7_perm_invariant _ _
    (List.Perm.swap ({ cc := 4, mi := 5, loc := 6 } : MetricSample)
      ({ cc := 1, mi := 2, loc := 3 } : MetricSample) [])

/-- C8: when every sample of a group shares the same complexity value C and
the total lines of code is positive, the aggregate complexity is exactly C,
whatever the individual line counts. -/
theorem claim_C8_constant_complexity (l : List MetricSample) (C : ℚ)
    (hall : ∀ s ∈ l, s.cc = C) (hpos : 0 < totalLoc l) :
    (aggregate l).cc = C := by
  have h0 : totalLoc l ≠ 0 := hpos.ne'
  have hsum := sum_const_cc C l hall
  simp only [aggregate, if_pos h0]
  rw [totalCiclomatic_eq_sum, totalLoc_eq_sum, hsum]
  have hcast : (((l.map (fun s => s.loc)).sum : ℕ) : ℚ) ≠ 0 := by
    rw [totalLoc_eq_sum] at h0
    exact_mod_cast h0
  rw [mul_div_assoc, div_self hcast, mul_one]

theorem claim_C8_constant_complexity_witness :
    (aggregate [{ cc := 3, mi := 1, loc := 2 }, { cc := 3, mi := 5, loc := 6 }]).cc = 3 :=
  claim_C8_constant_complexity _ 3 (by decide) (by decide)

/-- C9: an all-zero sample is neutral for aggregation: appending it to any
sample list leaves the aggregate unchanged, and in particular appending the
sample produced by a failed per-file extraction leaves any group aggregate
unchanged. -/
theorem claim_C9_zero_neutral (l : List MetricSample) (A : Analyzer)
    (content name err : String) (herr : tryExtract A content = Except.error err) :
    aggregate (l ++ [zeroSample]) = aggregate l ∧
    aggregate (l ++ [(calculate_metrics A content name).1]) = aggregate l := by
  refine ⟨aggregate_append_zero l, ?_⟩
  have hcalc : (calculate_metrics A content name).1 = zeroSample := by
    unfold calculate_metrics zeroSample
    rw [herr]
  rw [hcalc]
  exact aggregate_append_zero l

theorem claim_C9_zero_neutral_witness :
    aggregate ([{ cc := 1, mi := 2, loc := 3 }] ++ [zeroSample])
        = aggregate [{ cc := 1, mi := 2, loc := 3 }] ∧
    aggregate ([{ cc := 1, mi := 2, loc := 3 }]
          ++ [(calculate_metrics errAnalyzer "def f(:" "mod_a").1])
        = aggregate [{ cc := 1, mi := 2, loc := 3 }] :=
  claim_C9_zero_neutral [{ cc := 1, mi := 2, loc := 3 }] errAnalyzer
    "def f(:" "mod_a" "invalid syntax" rfl

end AggregationClaims

section StructuralClaims

/-- C5: in every history walk, a tree entry whose stem is __init__ or whose
content at the commit is empty never contributes: no recorded stem is
__init__, and the samples recorded under any stem k are exactly one sample
per (visited commit, qualifying entry) pair, where qualifying means a .py
blob with nonempty content, stem not __init__ and stem equal to k. -/
theorem claim_C5_exclusions (A : Analyzer) (repo : Repo) (mc : Option ℕ)
    (k : String) :
    (∀ p ∈ generate_history_metrics_by_file A repo mc, p.1 ≠ "__init__") ∧
    groupOf (generate_history_metrics_by_file A repo mc) k
      = (visitedCommits repo mc).flatMap (fun c =>
          (c.tree.filter (fun e => contributesB repo c e k)).map
            (entrySample A repo c)) :=
  ⟨walk_keys_ne_init A repo mc, groupOf_walk A repo mc k⟩

theorem claim_C5_exclusions_witness :
    (∀ p ∈ generate_history_metrics_by_file stubAnalyzer twinRepo none,
        p.1 ≠ "__init__") ∧
    groupOf (generate_history_metrics_by_file stubAnalyzer twinRepo none) "util"
      = (visitedCommits twinRepo none).flatMap (fun c =>
          (c.tree.filter (fun e => contributesB twinRepo c e "util")).map
            (entrySample stubAnalyzer twinRepo c)) :=
  claim_C5_exclusions stubAnalyzer twinRepo none "util"

/-- C4 counterexample: the claim demands one row per source file of the HEAD
commit; in twinRepo the HEAD commit holds two qualifying .py files (in
different directories, same stem), yet the per-file table holds a single
row. -/
theorem claim_C4_counterexample :
    ((twinRepo.commits.headD
          { hexsha := "", committed_datetime := ⟨0, 0, 0, 0, 0, 0⟩, tree := [] }).tree.filter
        (fun e => decide (e.type = "blob") && strEndsWith e.path ".py")).length = 2 ∧
    (generate_project_metrics_by_file stubAnalyzer twinRepo).map List.length = some 1 := by
  constructor
  · decide
  · decide

/-- C4 amended: the per-file current-metrics table holds exactly one row per
distinct file stem of the HEAD commit (files sharing a stem collapse into
the first-encountered sample), each row being the head sample of that stem's
group in the history walk capped at one commit; the table is a function of
that capped walk alone, never of any other repository state. -/
theorem claim_C4_amended (A : Analyzer) (repo : Repo) :
    ∃ rows, generate_project_metrics_by_file A repo = some rows ∧
      rows.map FileRow.file
        = (generate_history_metrics_by_file A repo (some 1)).map Prod.fst ∧
      (rows.map FileRow.file).Nodup ∧
      (∀ r ∈ rows, ∃ g,
          (r.file, g) ∈ generate_history_metrics_by_file A repo (some 1) ∧
          g.head? = some { date := r.date, m := r.m }) ∧
      (∀ repo2 : Repo,
          generate_history_metrics_by_file A repo2 (some 1)
              = generate_history_metrics_by_file A repo (some 1) →
          generate_project_metrics_by_file A repo2
              = generate_project_metrics_by_file A repo) := by
  obtain ⟨rows, h1, h2, h3⟩ := project_by_file_spec A repo
  refine ⟨rows, h1, h2, ?_, h3, ?_⟩
  · rw [h2]
    exact walk_keys_nodup A repo (some 1)
  · intro repo2 heq
    unfold generate_project_metrics_by_file
    rw [heq]

theorem claim_C4_amended_witness :
    ∃ rows, generate_project_metrics_by_file stubAnalyzer twinRepo = some rows ∧
      rows.map FileRow.file
        = (generate_history_metrics_by_file stubAnalyzer twinRepo (some 1)).map Prod.fst ∧
      (rows.map FileRow.file).Nodup ∧
      (∀ r ∈ rows, ∃ g,
          (r.file, g) ∈ generate_history_metrics_by_file stubAnalyzer twinRepo (some 1) ∧
          g.head? = some { date := r.date, m := r.m }) ∧
      (∀ repo2 : Repo,
          generate_history_metrics_by_file stubAnalyzer repo2 (some 1)
              = generate_history_metrics_by_file stubAnalyzer twinRepo (some 1) →
          generate_project_metrics_by_file stubAnalyzer repo2
              = generate_project_metrics_by_file stubAnalyzer twinRepo) :=
  claim_C4_amended stubAnalyzer twinRepo

/-- C6: the history timeline groups samples by their date string, merging two
samples exactly when their date strings are byte-identical (each date appears
once, and a date appears at all exactly when some sample carries it); each
row aggregates precisely the samples with that byte-identical date; the rows
are ordered strictly descending by date string; and on validly bounded
datetimes the string order of the fixed-format dates coincides with
chronological order. -/
theorem claim_C6_history_timeline (h : List (String × List DatedSample))
    (dt1 dt2 : DateTime) (hv1 : dt1.Valid) (hv2 : dt2.Valid) :
    ((generate_history_metrics h).map Prod.fst).Nodup ∧
    (∀ d : String,
        d ∈ (generate_history_metrics h).map Prod.fst
          ↔ d ∈ (allSamples h).map DatedSample.date) ∧
    (∀ p ∈ generate_history_metrics h,
        p.2 = aggregateDated ((allSamples h).filter (fun s => decide (s.date = p.1)))) ∧
    ((generate_history_metrics h).map Prod.fst).Pairwise (fun a b : String => b < a) ∧
    (formatDate dt1 < formatDate dt2 ↔ chronoLt dt1 dt2) :=
  ⟨history_keys_nodup h, fun d => history_mem_dates h d, history_rows_aggregate h,
    history_keys_pairwise_gt h, formatDate_lt_iff dt1 dt2 hv1 hv2⟩

theorem claim_C6_history_timeline_witness :
    ((generate_history_metrics sampleHist).map Prod.fst).Nodup ∧
    (∀ d : String,
        d ∈ (generate_history_metrics sampleHist).map Prod.fst
          ↔ d ∈ (allSamples sampleHist).map DatedSample.date) ∧
    (∀ p ∈ generate_history_metrics sampleHist,
        p.2 = aggregateDated
          ((allSamples sampleHist).filter (fun s => decide (s.date = p.1)))) ∧
    ((generate_history_metrics sampleHist).map Prod.fst).Pairwise
        (fun a b : String => b < a) ∧
    (formatDate ⟨2024, 5, 2, 10, 0, 0⟩ < formatDate ⟨2024, 5, 2, 10, 0, 1⟩
      ↔ chronoLt ⟨2024, 5, 2, 10, 0, 0⟩ ⟨2024, 5, 2, 10, 0, 1⟩) :=
  claim_C6_history_timeline sampleHist ⟨2024, 5, 2, 10, 0, 0⟩ ⟨2024, 5, 2, 10, 0, 1⟩
    (by decide) (by decide)

theorem inspect_project_appends (A : Analyzer) (repo : Repo) (st : InspectorState)
    (b : Bool) (n : Int) (st2 : InspectorState)
    (h : inspect_project A repo st b n = some st2) :
    (∃ r, st2.metrics = st.metrics ++ [r]) ∧
    (∃ rows, st2.metrics_by_file = st.metrics_by_file ++ rows) := by
  unfold inspect_project at h
  cases hg : generate_project_metrics_by_file A repo with
  | none =>
      rw [hg] at h
      cases h
  | some new_rows =>
      rw [hg] at h
      simp only [Option.bind] at h
      cases b with
      | false =>
          simp only [Bool.false_eq_true, if_false] at h
          cases h
          exact ⟨⟨_, rfl⟩, ⟨new_rows, rfl⟩⟩
      | true =>
          simp only [if_true] at h
          cases h
          exact ⟨⟨_, rfl⟩, ⟨new_rows, rfl⟩⟩

theorem runInspections_metrics_length (A : Analyzer) (repo : Repo) (b : Bool)
    (n : Int) : ∀ (k : ℕ) (stk : InspectorState),
    runInspections A repo b n k = some stk → stk.metrics.length = k := by
  intro k
  induction k with
  | zero =>
      intro stk h
      cases h
      rfl
  | succ k ih =>
      intro stk h
      unfold runInspections at h
      cases hr : runInspections A repo b n k with
      | none =>
          rw [hr] at h
          cases h
      | some stp =>
          rw [hr] at h
          simp only [Option.bind] at h
          obtain ⟨⟨r, hm⟩, -⟩ := inspect_project_appends A repo stp b n stk h
          rw [hm, List.length_append, ih stp hr]
          rfl

/-- C10: the accumulator is append-only across calls on one inspector
instance: every successful inspect_project call appends exactly one overall
row to metrics and appends (never clears) the per-file rows, so after k
successful calls the overall metrics table holds exactly k rows. -/
theorem claim_C10_append_only (A : Analyzer) (repo : Repo) (b : Bool) (n : Int)
    (k : ℕ) (stk : InspectorState)
    (hk : runInspections A repo b n k = some stk) :
    stk.metrics.length = k ∧
    (∀ st st2 : InspectorState, inspect_project A repo st b n = some st2 →
      (∃ r, st2.metrics = st.metrics ++ [r]) ∧
      (∃ rows, st2.metrics_by_file = st.metrics_by_file ++ rows)) :=
  ⟨runInspections_metrics_length A repo b n k stk hk,
    fun st st2 h => inspect_project_appends A repo st b n st2 h⟩

theorem claim_C10_append_only_witness :
    twoRunState.metrics.length = 2 ∧
    (∀ st st2 : InspectorState,
        inspect_project stubAnalyzer emptyRepo st false 0 = some st2 →
      (∃ r, st2.metrics = st.metrics ++ [r]) ∧
      (∃ rows, st2.metrics_by_file = st.metrics_by_file ++ rows)) :=
  claim_C10_append_only stubAnalyzer emptyRepo false 0 2 twoRunState (by decide)

end StructuralClaims
